import Mathlib

/-!
Verification of the nd_array / nd_span shape-and-view engine
(`include/nd_array/nd_array.hpp`).

The shallow embedding below mirrors the C++ source:

* `std::array<size_t, MaxRank>` members become total functions `Nat → Nat`;
  every loop in the source is bounded by `rank ≤ MaxRank`, so slots at
  indices the C++ array does not have are never consulted.
* Machine `size_t` arithmetic never overflows in the modelled paths for the
  inputs considered (products and sums of extents), so `Nat` is used.
* Throwing functions return `Except Err α`; each C++ exception site is mapped
  to the error of the spec's taxonomy that its message denotes.
* The element buffer behind a view is an abstract memory `Nat → Int`; a data
  pointer is the offset (`m_base`) of the view's first element in it.
-/

/-- Error taxonomy of the library, one constructor per distinct C++ throw
message, following the spec's names.  Both permutation-related
`std::invalid_argument` messages denote the spec's InvalidPermutation. -/
inductive Err where
  | rankExceedsMaximum
  | indexOutOfBounds
  | dimOutOfRange
  | invalidRange
  | invalidPermutation
  | reshapeSizeMismatch
  | reshapeRequiresContiguous
deriving DecidableEq, Repr

/-- Loop body accumulator of `detail::offset_computer::compute`: walks the
index pack left to right at position `i`, throws on the first out-of-bounds
index, otherwise accumulates `offset += idx[i] * strides[i]`. -/
def offset_compute_aux (e s : Nat → Nat) : List Nat → Nat → Nat → Except Err Nat
  | [], _, acc => .ok acc
  | v :: rest, i, acc =>
    if e i ≤ v then .error .indexOutOfBounds
    else offset_compute_aux e s rest (i + 1) (acc + v * s i)

/-- Model of `detail::offset_computer::compute` (nd_array.hpp:36-50). -/
def offset_compute (e s : Nat → Nat) (idx : List Nat) : Except Err Nat :=
  offset_compute_aux e s idx 0 0

/-- The descending loop of `detail::stride_computer::compute`
(`for i = rank-1; i > 0; --i: strides[i-1] = strides[i] * extents[i]`).
`stride_loop e s j` performs the body for loop values `j, j-1, …, 1`,
the case `j+1` writing slot `j` from slot `j+1`. -/
def stride_loop (e : Nat → Nat) : (Nat → Nat) → Nat → (Nat → Nat)
  | s, 0 => s
  | s, j + 1 => stride_loop e (Function.update s j (s (j + 1) * e (j + 1))) j

/-- Model of `detail::stride_computer::compute` (nd_array.hpp:65-80):
no-op when `rank = 0`; else set `strides[rank-1] = 1`, run the descending
product loop, and zero the inert slots `rank ≤ i < MaxRank`. -/
def stride_compute (maxRank : Nat) (e s : Nat → Nat) (rank : Nat) : Nat → Nat :=
  if rank = 0 then s
  else
    let s2 := stride_loop e (Function.update s (rank - 1) 1) (rank - 1)
    fun i => if rank ≤ i ∧ i < maxRank then 0 else s2 i

/-- Accumulating product loop of `detail::compute_size`
(`s = 1; for i < rank: s *= extents[i]`). -/
def compute_size_aux (e : Nat → Nat) : Nat → Nat
  | 0 => 1
  | i + 1 => compute_size_aux e i * e i

/-- Model of `detail::compute_size` (nd_array.hpp:99-109): 0 when `rank = 0`,
else the product of the active extents. -/
def compute_size (e : Nat → Nat) (rank : Nat) : Nat :=
  if rank = 0 then 0 else compute_size_aux e rank

/-- Descending comparison loop of `detail::is_contiguous`
(`for i = rank-1; i > 0; --i: strides[i-1] == strides[i]*extents[i]`);
`contig_loop e s j` checks the body for loop values `j, …, 1`. -/
def contig_loop (e s : Nat → Nat) : Nat → Bool
  | 0 => true
  | j + 1 => (s j == s (j + 1) * e (j + 1)) && contig_loop e s j

/-- Model of `detail::is_contiguous` (nd_array.hpp:118-134). -/
def is_contiguous (e s : Nat → Nat) (rank : Nat) : Bool :=
  if rank = 0 then true
  else if compute_size e rank = 0 then true
  else if s (rank - 1) ≠ 1 then false
  else contig_loop e s (rank - 1)

/-- Scanning loop of `detail::validate_permutation`: walks the axes with the
`seen` array, rejecting an axis that is out of range or already seen. -/
def perm_check (rank : Nat) : List Nat → (Nat → Bool) → Bool
  | [], _ => true
  | a :: rest, seen =>
    if rank ≤ a ∨ seen a then false
    else perm_check rank rest (Function.update seen a true)

/-- Model of `detail::validate_permutation` (nd_array.hpp:142-158); the
permutation's length plays the role of `t_rank`, exactly how every caller in
the source invokes it. -/
def validate_permutation (maxRank : Nat) (axes : List Nat) : Except Err Unit :=
  if maxRank < axes.length then .error .invalidPermutation
  else if perm_check axes.length axes (fun _ => false) then .ok ()
  else .error .invalidPermutation

/-- Product of `e` over the index interval `[lo, lo+n)`; used to state the
row-major stride and offset formulas of the spec. -/
def prodFrom (e : Nat → Nat) : Nat → Nat → Nat
  | _, 0 => 1
  | lo, n + 1 => e lo * prodFrom e (lo + 1) n

/-- Dot product of an index list starting at position `i` against strides `s`:
the value `offset_compute` accumulates when no index is out of bounds. -/
def dotFrom : List Nat → Nat → (Nat → Nat) → Nat
  | [], _, _ => 0
  | v :: rest, i, s => v * s i + dotFrom rest (i + 1) s

/-- Row-major offset formula as the spec writes it:
`Σ indices[i] * Π extents[i+1..rank)`. -/
def spec_offset (e : Nat → Nat) (rank : Nat) : List Nat → Nat → Nat
  | [], _ => 0
  | v :: rest, i => v * prodFrom e (i + 1) (rank - (i + 1)) + spec_offset e rank rest (i + 1)

-- Basic facts about the loops.

theorem stride_loop_ge (e : Nat → Nat) :
    ∀ (j : Nat) (s : Nat → Nat) (k : Nat), j ≤ k → stride_loop e s j k = s k := by
  intro j
  induction j with
  | zero => intro s k _; rfl
  | succ j ih =>
    intro s k hk
    have hne : k ≠ j := by omega
    simp only [stride_loop]
    rw [ih _ k (by omega), Function.update_noteq hne]

theorem stride_loop_lt (e : Nat → Nat) (R : Nat) :
    ∀ (j : Nat) (s : Nat → Nat), j < R → s j = prodFrom e (j + 1) (R - 1 - j) →
      ∀ k, k ≤ j → stride_loop e s j k = prodFrom e (k + 1) (R - 1 - k) := by
  intro j
  induction j with
  | zero =>
    intro s _ hs k hk
    interval_cases k
    simpa using hs
  | succ j ih =>
    intro s hj hs k hk
    simp only [stride_loop]
    rcases Nat.lt_or_ge k (j + 1) with hklt | hkge
    · -- k ≤ j: handled by the recursive call, whose seed slot j is now correct
      have hupd : (Function.update s j (s (j + 1) * e (j + 1))) j
          = prodFrom e (j + 1) (R - 1 - j) := by
        rw [Function.update_same, hs]
        have hn : R - 1 - j = (R - 1 - (j + 1)) + 1 := by omega
        rw [hn]
        simp only [prodFrom]
        ring
      exact ih _ (by omega) hupd k (by omega)
    · -- k = j + 1: untouched by the remaining iterations
      have hk1 : k = j + 1 := by omega
      subst hk1
      rw [stride_loop_ge e j _ (j + 1) (by omega),
        Function.update_noteq (by omega), hs]

/-- Closed form of the freshly computed strides on the active slots:
`strides[i] = Π extents[i+1..rank)`. -/
theorem stride_compute_active (maxRank : Nat) (e s : Nat → Nat) (rank i : Nat)
    (hi : i < rank) :
    stride_compute maxRank e s rank i = prodFrom e (i + 1) (rank - 1 - i) := by
  have hr : rank ≠ 0 := by omega
  simp only [stride_compute, if_neg hr]
  have hni : ¬ (rank ≤ i ∧ i < maxRank) := by omega
  simp only [if_neg hni]
  have hseed : (Function.update s (rank - 1) 1) (rank - 1)
      = prodFrom e (rank - 1 + 1) (rank - 1 - (rank - 1)) := by
    rw [Function.update_same]
    have : rank - 1 - (rank - 1) = 0 := by omega
    rw [this]
    rfl
  exact stride_loop_lt e rank (rank - 1) _ (by omega) hseed i (by omega)

/-- The inert slots `rank ≤ i < MaxRank` of freshly computed strides are 0. -/
theorem stride_compute_inert (maxRank : Nat) (e s : Nat → Nat) (rank i : Nat)
    (hr : rank ≠ 0) (h1 : rank ≤ i) (h2 : i < maxRank) :
    stride_compute maxRank e s rank i = 0 := by
  simp only [stride_compute, if_neg hr]
  simp only [if_pos (And.intro h1 h2)]

/-- Generalized success case of the offset loop: when every remaining index is
in bounds (positions counted from `i`), the loop returns the accumulated dot
product against the strides. -/
theorem offset_compute_aux_ok (e s : Nat → Nat) :
    ∀ (idx : List Nat) (i acc : Nat),
      (∀ j, j < idx.length → idx.getD j 0 < e (i + j)) →
      offset_compute_aux e s idx i acc = .ok (acc + dotFrom idx i s) := by
  intro idx
  induction idx with
  | nil => intro i acc _; simp [offset_compute_aux, dotFrom]
  | cons v rest ih =>
    intro i acc hb
    have h0 : v < e i := by
      have := hb 0 (by simp)
      simpa using this
    simp only [offset_compute_aux, if_neg (by omega : ¬ e i ≤ v)]
    rw [ih (i + 1) (acc + v * s i) (fun j hj => by
      have := hb (j + 1) (by simpa using Nat.succ_lt_succ hj)
      simpa [Nat.add_assoc, Nat.add_comm 1 j] using this)]
    simp [dotFrom]
    ring

/-- Generalized failure case of the offset loop: if any remaining index is out
of bounds, the loop throws IndexOutOfBounds. -/
theorem offset_compute_aux_err (e s : Nat → Nat) :
    ∀ (idx : List Nat) (i acc : Nat),
      (∃ j, j < idx.length ∧ e (i + j) ≤ idx.getD j 0) →
      offset_compute_aux e s idx i acc = .error .indexOutOfBounds := by
  intro idx
  induction idx with
  | nil => intro i acc h; rcases h with ⟨j, hj, _⟩; simp at hj
  | cons v rest ih =>
    intro i acc h
    by_cases h0 : e i ≤ v
    · simp [offset_compute_aux, if_pos h0]
    · simp only [offset_compute_aux, if_neg h0]
      apply ih
      rcases h with ⟨j, hj, hge⟩
      cases j with
      | zero => exact absurd (by simpa using hge) h0
      | succ j =>
        refine ⟨j, by simpa using Nat.lt_of_succ_lt_succ hj, ?_⟩
        have : i + (j + 1) = i + 1 + j := by omega
        rw [this] at hge
        simpa using hge

/-- Success form of `offset_compute` at position 0. -/
theorem offset_compute_ok (e s : Nat → Nat) (idx : List Nat)
    (hb : ∀ j, j < idx.length → idx.getD j 0 < e j) :
    offset_compute e s idx = .ok (dotFrom idx 0 s) := by
  have := offset_compute_aux_ok e s idx 0 0 (fun j hj => by simpa using hb j hj)
  simpa [offset_compute] using this

/-- Failure form of `offset_compute`. -/
theorem offset_compute_err (e s : Nat → Nat) (idx : List Nat)
    (h : ∃ j, j < idx.length ∧ e j ≤ idx.getD j 0) :
    offset_compute e s idx = .error .indexOutOfBounds := by
  apply offset_compute_aux_err
  rcases h with ⟨j, hj, hge⟩
  exact ⟨j, hj, by simpa using hge⟩

/-!  The view type.  `nd_span` (nd_array.hpp:182-624) is a
(pointer, extents, strides, rank) quadruple; the pointer is modelled as the
offset `m_base` of the view's first element inside an abstract memory.
The record constructor itself is the primary public C++ constructor
`nd_span(pointer, extents, strides, rank)`, which stores its arguments
unchecked. -/
structure nd_span where
  m_base : Nat
  m_extents : Nat → Nat
  m_strides : Nat → Nat
  m_rank : Nat

/-- Member `nd_span::compute_size` / `size()` (nd_array.hpp:545-555), a
verbatim copy of `detail::compute_size`. -/
def nd_span.size (v : nd_span) : Nat :=
  compute_size v.m_extents v.m_rank

/-- Extent-list constructor `nd_span(pointer, initializer_list)`
(nd_array.hpp:216-234); the container and variadic constructors
(248-296) run the identical code.  Extents are copied, slots at index
`rank ≤ i` are zeroed, strides are freshly computed. -/
def ndSpanOfExtents (maxRank : Nat) (base : Nat) (exts : List Nat) : Except Err nd_span :=
  if maxRank < exts.length then .error .rankExceedsMaximum
  else
    .ok { m_base := base,
          m_extents := fun i => if i < exts.length then exts.getD i 0 else 0,
          m_strides := stride_compute maxRank
            (fun i => if i < exts.length then exts.getD i 0 else 0) (fun _ => 0) exts.length,
          m_rank := exts.length }

/-- Model of `nd_span::subspan(dim, {start, stop})` (nd_array.hpp:335-354). -/
def nd_span.subspan (v : nd_span) (dim start stop : Nat) : Except Err nd_span :=
  if v.m_rank ≤ dim then .error .dimOutOfRange
  else if v.m_extents dim ≤ start ∨ v.m_extents dim < stop ∨ stop ≤ start then
    .error .invalidRange
  else
    .ok { m_base := v.m_base + start * v.m_strides dim,
          m_extents := Function.update v.m_extents dim (stop - start),
          m_strides := v.m_strides,
          m_rank := v.m_rank }

/-- Model of `nd_span::slice(dim, index)` (nd_array.hpp:366-401).  The
compacting copy loop (skip axis `dim`, then zero slots from the new rank up)
yields exactly the piecewise shape written here. -/
def nd_span.slice (v : nd_span) (dim index : Nat) : Except Err nd_span :=
  if v.m_rank ≤ dim then .error .dimOutOfRange
  else if v.m_extents dim ≤ index then .error .indexOutOfBounds
  else
    .ok { m_base := v.m_base + index * v.m_strides dim,
          m_extents := fun j =>
            if j < dim then v.m_extents j
            else if j < v.m_rank - 1 then v.m_extents (j + 1) else 0,
          m_strides := fun j =>
            if j < dim then v.m_strides j
            else if j < v.m_rank - 1 then v.m_strides (j + 1) else 0,
          m_rank := v.m_rank - 1 }

/-- Model of `nd_span::reshape_impl` (nd_array.hpp:557-584): rank guard, then
contiguity guard, then size guard, then fresh row-major strides over the same
base pointer.  `new_extents_array` is zero-initialized and filled up to the
new rank. -/
def nd_span.reshape (maxRank : Nat) (v : nd_span) (newE : List Nat) : Except Err nd_span :=
  if maxRank < newE.length then .error .rankExceedsMaximum
  else if is_contiguous v.m_extents v.m_strides v.m_rank then
    if compute_size (fun i => if i < newE.length then newE.getD i 0 else 0) newE.length
        ≠ v.size then .error .reshapeSizeMismatch
    else
      .ok { m_base := v.m_base,
            m_extents := fun i => if i < newE.length then newE.getD i 0 else 0,
            m_strides := stride_compute maxRank
              (fun i => if i < newE.length then newE.getD i 0 else 0) (fun _ => 0) newE.length,
            m_rank := newE.length }
  else .error .reshapeRequiresContiguous

/-- Model of `nd_span::transpose_impl` (nd_array.hpp:586-608). -/
def nd_span.transpose (maxRank : Nat) (v : nd_span) (axes : List Nat) : Except Err nd_span :=
  if axes.length ≠ v.m_rank then .error .invalidPermutation
  else
    match validate_permutation maxRank axes with
    | .error err => .error err
    | .ok _ =>
      .ok { m_base := v.m_base,
            m_extents := fun i => if i < v.m_rank then v.m_extents (axes.getD i 0) else 0,
            m_strides := fun i => if i < v.m_rank then v.m_strides (axes.getD i 0) else 0,
            m_rank := v.m_rank }

/-- Model of `nd_span::make_t_axes` (nd_array.hpp:610-623): the identity
permutation with the last two axes swapped when `rank ≥ 2` (the identity
values at those slots are `rank-1` and `rank-2`). -/
def make_t_axes (rank : Nat) : List Nat :=
  if 2 ≤ rank then ((List.range rank).set (rank - 1) (rank - 2)).set (rank - 2) (rank - 1)
  else List.range rank

/-- Model of `nd_span::T()` (nd_array.hpp:429-434). -/
def nd_span.trT (maxRank : Nat) (v : nd_span) : Except Err nd_span :=
  v.transpose maxRank (make_t_axes v.m_rank)

/-- Model of `nd_span::flatten()` (nd_array.hpp:438): `reshape(size())`. -/
def nd_span.flatten (maxRank : Nat) (v : nd_span) : Except Err nd_span :=
  v.reshape maxRank [v.size]

/-- Kept axes of `nd_span::squeeze` (nd_array.hpp:442-465): the selection loop
keeps, in order, exactly the axes whose extent is not 1. -/
def squeeze_kept (e : Nat → Nat) (rank : Nat) : List Nat :=
  (List.range rank).filter (fun i => e i != 1)

/-- Model of `nd_span::squeeze` (nd_array.hpp:442-465): compact the kept axes
to the front, zero every later slot, same base pointer. -/
def nd_span.squeeze (v : nd_span) : nd_span :=
  { m_base := v.m_base,
    m_extents := fun j => ((squeeze_kept v.m_extents v.m_rank).map v.m_extents).getD j 0,
    m_strides := fun j => ((squeeze_kept v.m_extents v.m_rank).map v.m_strides).getD j 0,
    m_rank := (squeeze_kept v.m_extents v.m_rank).length }

/-- Element read through a view: index via `offset_compute`, then dereference
`m_data[offset]` in the underlying memory. -/
def read_at (mem : Nat → Int) (v : nd_span) (idx : List Nat) : Except Err Int :=
  (offset_compute v.m_extents v.m_strides idx).map fun o => mem (v.m_base + o)

/-- Element write through a view (`span(i, j, …) = x`). -/
def write_at (mem : Nat → Int) (v : nd_span) (idx : List Nat) (x : Int) :
    Except Err (Nat → Int) :=
  (offset_compute v.m_extents v.m_strides idx).map fun o =>
    Function.update mem (v.m_base + o) x

/-- Model of the view's `begin()/end()` iteration (nd_array.hpp:517-533):
`begin()` is the raw pointer `m_data`, `end()` is `m_data + size()`, so the
visited elements are the first `size()` cells of raw memory. -/
def flat_iter (mem : Nat → Int) (v : nd_span) : List Int :=
  (List.range v.size).map fun k => mem (v.m_base + k)

/-!  Logical (row-major, shape-aware) iteration order — modelled from the
spec's words for comparison with the code's flat pointer iteration:
"produces elements in row-major logical order of the current shape …
iteration must recompute the physical offset from the logical coordinate". -/

/-- Row-major unranking: the logical coordinate of sequential position `k`
for the active extents, last axis varying fastest. -/
def unrank_aux (e : Nat → Nat) : Nat → Nat → List Nat → List Nat
  | 0, _, acc => acc
  | i + 1, k, acc => unrank_aux e i (k / e i) ((k % e i) :: acc)

/-- Row-major coordinate of position `k` in a shape of the given rank. -/
def unrank (e : Nat → Nat) (rank k : Nat) : List Nat :=
  unrank_aux e rank k []

/-- Modelled from the spec: the element sequence of a view in row-major
logical order of its current shape, each physical offset recomputed from the
logical coordinate through the view's strides.  This is what the spec (and
the repository's stride-aware iteration tests) require of `begin()/end()`. -/
def logical_iter (mem : Nat → Int) (v : nd_span) : List Int :=
  (List.range v.size).map fun k =>
    mem (v.m_base + dotFrom (unrank v.m_extents v.m_rank k) 0 v.m_strides)

/-!  The owning array.  `nd_array` (nd_array.hpp:653-1430) owns a
`unique_ptr` buffer; `m_data = none` models the null pointer.  Its buffer is
its own address space, so views produced from it use base offsets counted
from 0 (`m_data.get() + offset`). -/
structure nd_array where
  m_data : Option (Nat → Int)
  m_extents : Nat → Nat
  m_strides : Nat → Nat
  m_size : Nat
  m_rank : Nat

/-- Extent-list constructor `nd_array(initializer_list)`
(nd_array.hpp:681-701); the container and variadic constructors run the
identical code. The fresh allocation is value-initialized to zero. -/
def ndArrayOfExtents (maxRank : Nat) (exts : List Nat) : Except Err nd_array :=
  if maxRank < exts.length then .error .rankExceedsMaximum
  else
    .ok { m_data := some (fun _ => (0 : Int)),
          m_extents := fun i => if i < exts.length then exts.getD i 0 else 0,
          m_strides := stride_compute maxRank
            (fun i => if i < exts.length then exts.getD i 0 else 0) (fun _ => 0) exts.length,
          m_size := compute_size
            (fun i => if i < exts.length then exts.getD i 0 else 0) exts.length,
          m_rank := exts.length }

/-- Model of the defaulted move constructor / move assignment
(nd_array.hpp:775, 813): member-wise move.  Moving the `unique_ptr` nulls the
source pointer; the `std::array` and `size_t` members are trivially copied and
left unchanged in the source.  The first component is the destination, the
second is the source after the move. -/
def nd_array.move (a : nd_array) : nd_array × nd_array :=
  ({ m_data := a.m_data, m_extents := a.m_extents, m_strides := a.m_strides,
     m_size := a.m_size, m_rank := a.m_rank },
   { m_data := none, m_extents := a.m_extents, m_strides := a.m_strides,
     m_size := a.m_size, m_rank := a.m_rank })

/-- Buffer cell of an array (`m_data[k]`); reading a null buffer is
caller-side undefined behaviour, modelled by 0. -/
def arr_cell (a : nd_array) (k : Nat) : Int :=
  match a.m_data with
  | some f => f k
  | none => 0

/-- Model of `nd_array::from_span_impl` (nd_array.hpp:1262-1295) for a span
over memory `mem`: rebuild the shape from the span's extents, allocate, then
fill sequentially from the span's `begin()/end()` range — which the source
defines as raw pointer iteration over `[m_data, m_data + size)`. -/
def from_span_impl (maxRank : Nat) (mem : Nat → Int) (v : nd_span) : Except Err nd_array :=
  if maxRank < v.m_rank then .error .rankExceedsMaximum
  else
    let e := fun i => if i < v.m_rank then v.m_extents i else 0
    let s := stride_compute maxRank e (fun _ => 0) v.m_rank
    let sz := compute_size e v.m_rank
    .ok { m_data := if 0 < sz then some (fun k => if k < sz then mem (v.m_base + k) else 0)
            else none,
          m_extents := e, m_strides := s, m_size := sz, m_rank := v.m_rank }

/-- The view "constructed from the array's own buffer and Shape": the primary
`nd_span` constructor applied to `m_data.get()`, `m_extents`, `m_strides`,
`m_rank`. -/
def span_of (a : nd_array) : nd_span :=
  { m_base := 0, m_extents := a.m_extents, m_strides := a.m_strides, m_rank := a.m_rank }

/-- Model of `nd_array::subspan(dim, start, stop)` (nd_array.hpp:939-956);
the base pointer is `m_data.get() + offset`, i.e. offset `0 + offset` in the
array's buffer. -/
def nd_array.subspan (a : nd_array) (dim start stop : Nat) : Except Err nd_span :=
  if a.m_rank ≤ dim then .error .dimOutOfRange
  else if a.m_extents dim ≤ start ∨ a.m_extents dim < stop ∨ stop ≤ start then
    .error .invalidRange
  else
    .ok { m_base := 0 + start * a.m_strides dim,
          m_extents := Function.update a.m_extents dim (stop - start),
          m_strides := a.m_strides,
          m_rank := a.m_rank }

/-- Model of `nd_array::slice` (nd_array.hpp:994-1029), code identical to
`nd_span::slice`. -/
def nd_array.slice (a : nd_array) (dim index : Nat) : Except Err nd_span :=
  if a.m_rank ≤ dim then .error .dimOutOfRange
  else if a.m_extents dim ≤ index then .error .indexOutOfBounds
  else
    .ok { m_base := 0 + index * a.m_strides dim,
          m_extents := fun j =>
            if j < dim then a.m_extents j
            else if j < a.m_rank - 1 then a.m_extents (j + 1) else 0,
          m_strides := fun j =>
            if j < dim then a.m_strides j
            else if j < a.m_rank - 1 then a.m_strides (j + 1) else 0,
          m_rank := a.m_rank - 1 }

/-- Model of `nd_array::reshape_impl` (nd_array.hpp:1314-1336): unlike the
span version it has no contiguity guard, and it compares against the stored
`m_size`. -/
def nd_array.reshape (maxRank : Nat) (a : nd_array) (newE : List Nat) : Except Err nd_span :=
  if maxRank < newE.length then .error .rankExceedsMaximum
  else if compute_size (fun i => if i < newE.length then newE.getD i 0 else 0) newE.length
      ≠ a.m_size then .error .reshapeSizeMismatch
  else
    .ok { m_base := 0,
          m_extents := fun i => if i < newE.length then newE.getD i 0 else 0,
          m_strides := stride_compute maxRank
            (fun i => if i < newE.length then newE.getD i 0 else 0) (fun _ => 0) newE.length,
          m_rank := newE.length }

/-- Model of `nd_array::transpose_impl` (nd_array.hpp:1362-1387), code
identical to `nd_span::transpose_impl` over the array's own buffer. -/
def nd_array.transpose (maxRank : Nat) (a : nd_array) (axes : List Nat) : Except Err nd_span :=
  if axes.length ≠ a.m_rank then .error .invalidPermutation
  else
    match validate_permutation maxRank axes with
    | .error err => .error err
    | .ok _ =>
      .ok { m_base := 0,
            m_extents := fun i => if i < a.m_rank then a.m_extents (axes.getD i 0) else 0,
            m_strides := fun i => if i < a.m_rank then a.m_strides (axes.getD i 0) else 0,
            m_rank := a.m_rank }

/-- Model of `nd_array::flatten` (nd_array.hpp:1144): `reshape(m_size)`. -/
def nd_array.flatten (maxRank : Nat) (a : nd_array) : Except Err nd_span :=
  a.reshape maxRank [a.m_size]

/-- Model of `nd_array::squeeze_impl` (nd_array.hpp:1404-1429), code identical
to `nd_span::squeeze` over the array's own buffer. -/
def nd_array.squeeze (a : nd_array) : nd_span :=
  { m_base := 0,
    m_extents := fun j => ((squeeze_kept a.m_extents a.m_rank).map a.m_extents).getD j 0,
    m_strides := fun j => ((squeeze_kept a.m_extents a.m_rank).map a.m_strides).getD j 0,
    m_rank := (squeeze_kept a.m_extents a.m_rank).length }

/-- Padding invariant claimed for views: every slot at index
`rank ≤ i < MaxRank` holds extent 0 and stride 0. -/
def well_formed (maxRank : Nat) (v : nd_span) : Prop :=
  ∀ i, i < maxRank → v.m_rank ≤ i → v.m_extents i = 0 ∧ v.m_strides i = 0

instance (maxRank : Nat) (v : nd_span) : Decidable (well_formed maxRank v) := by
  unfold well_formed
  infer_instance

/-- Error projection of a fallible result (none when the call succeeded). -/
def except_err {α : Type} : Except Err α → Option Err
  | .error e => some e
  | .ok _ => none

/-- On positions covered by the active rank, the dot product against freshly
computed strides is the spec's row-major offset formula. -/
theorem dotFrom_fresh_strides (maxRank rank : Nat) (e s0 : Nat → Nat) :
    ∀ (idx : List Nat) (i : Nat), i + idx.length ≤ rank →
      dotFrom idx i (stride_compute maxRank e s0 rank) = spec_offset e rank idx i := by
  intro idx
  induction idx with
  | nil => intro i _; rfl
  | cons v rest ih =>
    intro i hi
    simp only [dotFrom, spec_offset]
    rw [stride_compute_active maxRank e s0 rank i (by simp at hi; omega),
      ih (i + 1) (by simp at hi ⊢; omega)]
    have : rank - 1 - i = rank - (i + 1) := by omega
    rw [this]

/-- C5 (confirmed): for a freshly constructed shape (strides derived from the
extents by `stride_computer`), indexing a full in-bounds index tuple computes
exactly the row-major offset `Σ indices[i] * Π extents[i+1..rank)`. -/
theorem offset_matches_row_major_formula (maxRank rank : Nat) (e s0 : Nat → Nat)
    (idx : List Nat) (hlen : idx.length = rank) (_hr : rank ≤ maxRank)
    (hb : ∀ j, j < idx.length → idx.getD j 0 < e j) :
    offset_compute e (stride_compute maxRank e s0 rank) idx
      = .ok (spec_offset e rank idx 0) := by
  rw [offset_compute_ok _ _ idx hb,
    dotFrom_fresh_strides maxRank rank e s0 idx 0 (by omega)]

/-- Witness for C5, the spec's concrete scenario: extents (3,4) give strides
(4,1) and index (1,2) gives offset 6. -/
theorem offset_matches_row_major_formula_witness :
    offset_compute (fun i => [3, 4].getD i 0)
        (stride_compute 8 (fun i => [3, 4].getD i 0) (fun _ => 0) 2) [1, 2] = .ok 6
      ∧ stride_compute 8 (fun i => [3, 4].getD i 0) (fun _ => 0) 2 0 = 4
      ∧ stride_compute 8 (fun i => [3, 4].getD i 0) (fun _ => 0) 2 1 = 1 := by
  refine ⟨?_, by decide, by decide⟩
  have h := offset_matches_row_major_formula 8 2 (fun i => [3, 4].getD i 0) (fun _ => 0)
    [1, 2] (by decide) (by decide) (by decide)
  exact h.trans (by rfl)

/-- C4 counterexample: the public primary constructor
`nd_span(ptr, extents, strides, rank)` can build a view with extents (0) and
strides (7); the canonical row-major stride for extents (0) is 1, so the
strides are not canonical, yet `reshape({0})` succeeds instead of failing
with ReshapeRequiresContiguous, because `is_contiguous` treats every size-0
view as contiguous. -/
theorem reshape_zero_size_not_contiguous_ok :
    except_err ((nd_span.mk 0 (fun _ => 0) (fun _ => 7) 1).reshape 8 [0]) = none
      ∧ (nd_span.mk 0 (fun _ => 0) (fun _ => 7) 1).m_strides 0
          ≠ stride_compute 8 (nd_span.mk 0 (fun _ => 0) (fun _ => 7) 1).m_extents
              (fun _ => 0) 1 0 := by
  exact ⟨by decide, by decide⟩

/-- C4 (corrected): with at most MaxRank requested extents, `reshape` fails
with ReshapeRequiresContiguous exactly when `is_contiguous` rejects the view
(canonical row-major strides, with rank-0 and size-0 views counting as
contiguous); when the view is contiguous it fails with ReshapeSizeMismatch
when the product of the new extents differs from the current size, and
otherwise returns a view over the same base pointer with freshly row-major
derived strides for the new extents. -/
theorem reshape_behaviour (maxRank : Nat) (v : nd_span) (newE : List Nat)
    (hlen : newE.length ≤ maxRank) :
    (is_contiguous v.m_extents v.m_strides v.m_rank = false →
        v.reshape maxRank newE = .error .reshapeRequiresContiguous)
      ∧ (is_contiguous v.m_extents v.m_strides v.m_rank = true →
          compute_size (fun i => if i < newE.length then newE.getD i 0 else 0) newE.length
              ≠ v.size →
          v.reshape maxRank newE = .error .reshapeSizeMismatch)
      ∧ (is_contiguous v.m_extents v.m_strides v.m_rank = true →
          compute_size (fun i => if i < newE.length then newE.getD i 0 else 0) newE.length
              = v.size →
          (v.reshape maxRank newE).map nd_span.m_base = .ok v.m_base
            ∧ (v.reshape maxRank newE).map nd_span.m_rank = .ok newE.length
            ∧ (v.reshape maxRank newE).map nd_span.m_extents
                = .ok (fun i => if i < newE.length then newE.getD i 0 else 0)
            ∧ (v.reshape maxRank newE).map nd_span.m_strides
                = .ok (stride_compute maxRank
                    (fun i => if i < newE.length then newE.getD i 0 else 0)
                    (fun _ => 0) newE.length)) := by
  have hnl : ¬ maxRank < newE.length := by omega
  refine ⟨fun hc => ?_, fun hc hsz => ?_, fun hc hsz => ?_⟩
  · unfold nd_span.reshape
    rw [if_neg hnl, hc, if_neg (by simp)]
  · unfold nd_span.reshape
    rw [if_neg hnl, hc, if_pos rfl, if_pos hsz]
  · unfold nd_span.reshape
    rw [if_neg hnl, hc, if_pos rfl, if_neg (not_not_intro hsz)]
    exact ⟨rfl, rfl, rfl, rfl⟩

/-- Witness for C4 at the contiguous 2x3 view with canonical strides (3,1),
reshaped to (3,2). -/
theorem reshape_behaviour_witness :
    is_contiguous (nd_span.mk 0 (fun i => [2, 3].getD i 0) (fun i => [3, 1].getD i 0) 2).m_extents
        (nd_span.mk 0 (fun i => [2, 3].getD i 0) (fun i => [3, 1].getD i 0) 2).m_strides 2 = true
      ∧ ((nd_span.mk 0 (fun i => [2, 3].getD i 0) (fun i => [3, 1].getD i 0) 2).reshape 8
          [3, 2]).map nd_span.m_rank = .ok 2
      ∧ ((nd_span.mk 0 (fun i => [2, 3].getD i 0) (fun i => [3, 1].getD i 0) 2).reshape 8
          [3, 2]).map nd_span.m_base = .ok 0 := by
  have h := (reshape_behaviour 8
    (nd_span.mk 0 (fun i => [2, 3].getD i 0) (fun i => [3, 1].getD i 0) 2) [3, 2]
    (by decide)).2.2 (by decide) (by decide)
  exact ⟨by decide, h.2.1, h.1⟩

/-- A coordinate tuple with the `dim`-th index shifted by `start`: the parent
coordinate corresponding to a subspan coordinate. -/
def shiftIdx : List Nat → Nat → Nat → List Nat
  | [], _, _ => []
  | v :: rest, 0, st => (v + st) :: rest
  | v :: rest, d + 1, st => v :: shiftIdx rest d st

theorem shiftIdx_length : ∀ (idx : List Nat) (d st : Nat),
    (shiftIdx idx d st).length = idx.length := by
  intro idx
  induction idx with
  | nil => intro d st; cases d <;> rfl
  | cons v rest ih =>
    intro d st
    cases d with
    | zero => rfl
    | succ d => simp [shiftIdx, ih]

theorem shiftIdx_getD : ∀ (idx : List Nat) (d st j : Nat),
    (shiftIdx idx d st).getD j 0
      = if j = d ∧ j < idx.length then idx.getD j 0 + st else idx.getD j 0 := by
  intro idx
  induction idx with
  | nil =>
    intro d st j
    have h : ¬ (j = d ∧ j < ([] : List Nat).length) := by simp
    rw [if_neg h]
    cases d <;> rfl
  | cons v rest ih =>
    intro d st j
    cases d with
    | zero =>
      cases j with
      | zero => simp [shiftIdx]
      | succ j => simp [shiftIdx]
    | succ d =>
      cases j with
      | zero => simp [shiftIdx]
      | succ j =>
        simp only [shiftIdx, List.getD_cons_succ, ih d st j, List.length_cons]
        by_cases h : j = d ∧ j < rest.length
        · rw [if_pos h, if_pos (by omega)]
        · rw [if_neg h, if_neg (by omega)]

theorem dotFrom_shift (s : Nat → Nat) : ∀ (idx : List Nat) (d i st : Nat),
    d < idx.length →
    dotFrom (shiftIdx idx d st) i s = dotFrom idx i s + st * s (i + d) := by
  intro idx
  induction idx with
  | nil => intro d i st h; simp at h
  | cons v rest ih =>
    intro d i st h
    cases d with
    | zero =>
      simp only [shiftIdx, dotFrom, Nat.add_zero]
      ring
    | succ d =>
      simp only [shiftIdx, dotFrom]
      rw [ih d (i + 1) st (by simp at h; omega)]
      have : i + 1 + d = i + (d + 1) := by omega
      rw [this]
      ring

/-- C6 (confirmed): for `dim < rank` and `start < stop ≤ extents[dim]`,
`subspan(dim, start, stop)` keeps rank and strides, shrinks only the `dim`
extent to `stop - start`, and its element at any in-bounds coordinate is the
parent's element at the same coordinate shifted by `start` along `dim`; a
write through the subspan is observed at that parent location. -/
theorem subspan_correct (v : nd_span) (dim start stop : Nat) (mem : Nat → Int)
    (x : Int) (idx : List Nat)
    (hdim : dim < v.m_rank) (hss : start < stop) (hext : stop ≤ v.m_extents dim)
    (hlen : idx.length = v.m_rank)
    (hb : ∀ j, j < idx.length →
      idx.getD j 0 < Function.update v.m_extents dim (stop - start) j) :
    ((v.subspan dim start stop).map nd_span.m_rank = .ok v.m_rank)
      ∧ ((v.subspan dim start stop).map (fun w => w.m_extents dim) = .ok (stop - start))
      ∧ (∀ i, i ≠ dim →
          (v.subspan dim start stop).map (fun w => w.m_extents i) = .ok (v.m_extents i))
      ∧ ((v.subspan dim start stop).map nd_span.m_strides = .ok v.m_strides)
      ∧ ((v.subspan dim start stop).map (fun w => read_at mem w idx)
          = .ok (read_at mem v (shiftIdx idx dim start)))
      ∧ ((v.subspan dim start stop).map (fun w =>
            (write_at mem w idx x).map (fun m2 => read_at m2 v (shiftIdx idx dim start)))
          = .ok (.ok (.ok x))) := by
  have hok : v.subspan dim start stop
      = .ok { m_base := v.m_base + start * v.m_strides dim,
              m_extents := Function.update v.m_extents dim (stop - start),
              m_strides := v.m_strides,
              m_rank := v.m_rank } := by
    unfold nd_span.subspan
    rw [if_neg (by omega), if_neg (by push_neg; omega)]
  -- offset through the subspan
  have hsub : offset_compute (Function.update v.m_extents dim (stop - start))
      v.m_strides idx = .ok (dotFrom idx 0 v.m_strides) :=
    offset_compute_ok _ _ idx hb
  -- bounds of the shifted coordinate in the parent
  have hdlen : dim < idx.length := by omega
  have hb' : ∀ j, j < (shiftIdx idx dim start).length →
      (shiftIdx idx dim start).getD j 0 < v.m_extents j := by
    intro j hj
    rw [shiftIdx_length] at hj
    rw [shiftIdx_getD]
    by_cases hjd : j = dim
    · subst hjd
      rw [if_pos (And.intro rfl hj)]
      have := hb j hj
      rw [Function.update_same] at this
      omega
    · rw [if_neg (by tauto)]
      have := hb j hj
      rwa [Function.update_noteq hjd] at this
  have hpar : offset_compute v.m_extents v.m_strides (shiftIdx idx dim start)
      = .ok (dotFrom idx 0 v.m_strides + start * v.m_strides dim) := by
    rw [offset_compute_ok _ _ _ hb', dotFrom_shift v.m_strides idx dim 0 start hdlen]
    simp
  -- the physical addresses coincide
  have haddr : v.m_base + start * v.m_strides dim + dotFrom idx 0 v.m_strides
      = v.m_base + (dotFrom idx 0 v.m_strides + start * v.m_strides dim) := by ring
  refine ⟨by rw [hok]; rfl, ?_, ?_, by rw [hok]; rfl, ?_, ?_⟩
  · rw [hok]
    simp [Except.map, Function.update_same]
  · intro i hi
    rw [hok]
    simp [Except.map, Function.update_noteq hi]
  · rw [hok]
    simp only [Except.map, read_at, hsub, hpar]
    rw [haddr]
  · rw [hok]
    simp only [Except.map, write_at, read_at, hsub, hpar]
    rw [← haddr, Function.update_same]

/-- Witness for C6, the spec's concrete scenario: a 4x5 view over the buffer
0..19 restricted to rows 1..2 has sub(0,0) = 5. -/
theorem subspan_correct_witness :
    ((nd_span.mk 0 (fun i => [4, 5].getD i 0) (fun i => [5, 1].getD i 0) 2).subspan 0 1 3).map
        (fun w => read_at (fun k => (k : Int)) w [0, 0]) = .ok (.ok 5)
      ∧ ((nd_span.mk 0 (fun i => [4, 5].getD i 0) (fun i => [5, 1].getD i 0) 2).subspan
          0 1 3).map nd_span.m_rank = .ok 2 := by
  have h := subspan_correct
    (nd_span.mk 0 (fun i => [4, 5].getD i 0) (fun i => [5, 1].getD i 0) 2)
    0 1 3 (fun k => (k : Int)) 99 [0, 0]
    (by decide) (by decide) (by decide) (by decide) (by decide)
  exact ⟨h.2.2.2.2.1.trans (by rfl), h.1⟩

/-- Soundness of the `seen`-array scan: a passing scan means every axis is in
range, none was seen before, and the list has no duplicates. -/
theorem perm_check_sound : ∀ (l : List Nat) (rank : Nat) (seen : Nat → Bool),
    perm_check rank l seen = true →
    (∀ a ∈ l, a < rank ∧ seen a = false) ∧ l.Nodup := by
  intro l
  induction l with
  | nil => intro rank seen _; simp
  | cons a rest ih =>
    intro rank seen h
    by_cases hc : rank ≤ a ∨ seen a = true
    · rw [perm_check, if_pos hc] at h
      cases h
    · rw [perm_check, if_neg hc] at h
      push_neg at hc
      obtain ⟨hrec, hnd⟩ := ih rank (Function.update seen a true) h
      have hmem : a ∉ rest := by
        intro hmema
        have := (hrec a hmema).2
        rw [Function.update_same] at this
        cases this
      refine ⟨?_, List.nodup_cons.mpr ⟨hmem, hnd⟩⟩
      intro b hb
      rcases List.mem_cons.mp hb with hba | hbr
      · subst hba
        exact ⟨by omega, by simpa using hc.2⟩
      · obtain ⟨h1, h2⟩ := hrec b hbr
        have hne : b ≠ a := by
          intro hba
          subst hba
          rw [Function.update_same] at h2
          cases h2
        rw [Function.update_noteq hne] at h2
        exact ⟨h1, h2⟩

/-- Completeness of the `seen`-array scan: in-range, unseen, duplicate-free
axes pass. -/
theorem perm_check_complete : ∀ (l : List Nat) (rank : Nat) (seen : Nat → Bool),
    (∀ a ∈ l, a < rank ∧ seen a = false) → l.Nodup →
    perm_check rank l seen = true := by
  intro l
  induction l with
  | nil => intro rank seen _ _; rfl
  | cons a rest ih =>
    intro rank seen hall hnd
    have ha := hall a (by simp)
    rw [perm_check, if_neg (by push_neg; exact ⟨by omega, by simp [ha.2]⟩)]
    obtain ⟨hmem, hnd'⟩ := List.nodup_cons.mp hnd
    apply ih rank _ _ hnd'
    intro b hb
    obtain ⟨h1, h2⟩ := hall b (List.mem_cons_of_mem a hb)
    have hne : b ≠ a := fun hba => hmem (hba ▸ hb)
    rw [Function.update_noteq hne]
    exact ⟨h1, h2⟩

theorem getD_mem_of_lt (l : List Nat) (i : Nat) (h : i < l.length) : l.getD i 0 ∈ l := by
  rw [List.getD_eq_get l 0 h]
  exact List.get_mem l i h

/-- C7 (confirmed): `transpose(axes)` fails with InvalidPermutation when the
axes list has the wrong length, an out-of-range value, or a duplicate value;
and for a valid permutation, transposing again by its inverse restores the
original extents and strides on every active axis (hence the original
logical element order), along with rank and base pointer. -/
theorem transpose_roundtrip_and_validation (maxRank : Nat) :
    (∀ (v : nd_span) (axes : List Nat), axes.length ≠ v.m_rank →
        v.transpose maxRank axes = .error .invalidPermutation)
      ∧ (∀ (v : nd_span) (axes : List Nat), axes.length = v.m_rank →
          ((∃ a ∈ axes, v.m_rank ≤ a) ∨ ¬ axes.Nodup) →
          v.transpose maxRank axes = .error .invalidPermutation)
      ∧ (∀ (v : nd_span) (axes inv : List Nat),
          v.m_rank ≤ maxRank → axes.length = v.m_rank →
          (∀ a ∈ axes, a < v.m_rank) → axes.Nodup →
          inv.length = v.m_rank → (∀ a ∈ inv, a < v.m_rank) → inv.Nodup →
          (∀ i, i < v.m_rank → axes.getD (inv.getD i 0) 0 = i) →
          (((v.transpose maxRank axes).bind
              (fun w => w.transpose maxRank inv)).map nd_span.m_rank = .ok v.m_rank)
            ∧ (((v.transpose maxRank axes).bind
                (fun w => w.transpose maxRank inv)).map nd_span.m_base = .ok v.m_base)
            ∧ (∀ i, i < v.m_rank →
                ((v.transpose maxRank axes).bind
                    (fun w => w.transpose maxRank inv)).map (fun w => w.m_extents i)
                  = .ok (v.m_extents i)
                ∧ ((v.transpose maxRank axes).bind
                    (fun w => w.transpose maxRank inv)).map (fun w => w.m_strides i)
                  = .ok (v.m_strides i))) := by
  refine ⟨?_, ?_, ?_⟩
  · intro v axes hne
    unfold nd_span.transpose
    rw [if_pos hne]
  · intro v axes hlen hbad
    unfold nd_span.transpose
    rw [if_neg (not_not_intro hlen)]
    unfold validate_permutation
    by_cases hmr : maxRank < axes.length
    · rw [if_pos hmr]
    · rw [if_neg hmr]
      have hpc : perm_check axes.length axes (fun _ => false) = false := by
        cases hq : perm_check axes.length axes (fun _ => false)
        · rfl
        · exfalso
          obtain ⟨hall, hnd⟩ := perm_check_sound axes axes.length _ hq
          rcases hbad with ⟨a, ha, hge⟩ | hnnd
          · have := (hall a ha).1
            omega
          · exact hnnd hnd
      rw [hpc]
      rfl
  · intro v axes inv hN hlen hval hnd hilen hival hind hinv
    have hvala : validate_permutation maxRank axes = .ok () := by
      unfold validate_permutation
      rw [if_neg (by omega : ¬ maxRank < axes.length),
        perm_check_complete axes axes.length (fun _ => false)
          (fun a ha => ⟨by have := hval a ha; omega, rfl⟩) hnd]
      rfl
    have hvali : validate_permutation maxRank inv = .ok () := by
      unfold validate_permutation
      rw [if_neg (by omega : ¬ maxRank < inv.length),
        perm_check_complete inv inv.length (fun _ => false)
          (fun a ha => ⟨by have := hival a ha; omega, rfl⟩) hind]
      rfl
    have hok1 : v.transpose maxRank axes
        = .ok { m_base := v.m_base,
                m_extents := fun i => if i < v.m_rank then v.m_extents (axes.getD i 0) else 0,
                m_strides := fun i => if i < v.m_rank then v.m_strides (axes.getD i 0) else 0,
                m_rank := v.m_rank } := by
      unfold nd_span.transpose
      rw [if_neg (not_not_intro hlen), hvala]
    have hok2 : (nd_span.mk v.m_base
          (fun i => if i < v.m_rank then v.m_extents (axes.getD i 0) else 0)
          (fun i => if i < v.m_rank then v.m_strides (axes.getD i 0) else 0)
          v.m_rank).transpose maxRank inv
        = .ok { m_base := v.m_base,
                m_extents := fun j => if j < v.m_rank then
                  (if inv.getD j 0 < v.m_rank then v.m_extents (axes.getD (inv.getD j 0) 0) else 0)
                  else 0,
                m_strides := fun j => if j < v.m_rank then
                  (if inv.getD j 0 < v.m_rank then v.m_strides (axes.getD (inv.getD j 0) 0) else 0)
                  else 0,
                m_rank := v.m_rank } := by
      unfold nd_span.transpose
      rw [if_neg (not_not_intro hilen), hvali]
    rw [hok1]
    simp only [Except.bind]
    rw [hok2]
    refine ⟨rfl, rfl, ?_⟩
    intro i hi
    have hii : inv.getD i 0 < v.m_rank := hival _ (getD_mem_of_lt inv i (by omega))
    constructor
    · simp only [Except.map]
      rw [if_pos hi, if_pos hii, hinv i hi]
    · simp only [Except.map]
      rw [if_pos hi, if_pos hii, hinv i hi]

/-- Witness for C7: the 2x3 view with strides (3,1), transposed by (1,0) and
back by its inverse (1,0), recovers extents (2,3) and strides (3,1). -/
theorem transpose_roundtrip_and_validation_witness :
    (((nd_span.mk 0 (fun i => [2, 3].getD i 0) (fun i => [3, 1].getD i 0) 2).transpose 8
          [1, 0]).bind (fun w => w.transpose 8 [1, 0])).map nd_span.m_rank = .ok 2
      ∧ (((nd_span.mk 0 (fun i => [2, 3].getD i 0) (fun i => [3, 1].getD i 0) 2).transpose 8
          [1, 0]).bind (fun w => w.transpose 8 [1, 0])).map (fun w => w.m_extents 0) = .ok 2
      ∧ (((nd_span.mk 0 (fun i => [2, 3].getD i 0) (fun i => [3, 1].getD i 0) 2).transpose 8
          [1, 0]).bind (fun w => w.transpose 8 [1, 0])).map (fun w => w.m_strides 0) = .ok 3 := by
  have h := (transpose_roundtrip_and_validation 8).2.2
    (nd_span.mk 0 (fun i => [2, 3].getD i 0) (fun i => [3, 1].getD i 0) 2)
    [1, 0] [1, 0] (by decide) (by decide) (by decide) (by decide) (by decide) (by decide)
    (by decide) (by decide)
  exact ⟨h.1, (h.2.2 0 (by decide)).1, (h.2.2 0 (by decide)).2⟩

/-- C8 (confirmed): every shape transform of the owning array — subspan,
slice, reshape, transpose, flatten, squeeze — returns exactly the view (an
`nd_span` aliasing the array's buffer at base offset 0, never a new array)
that the view algebra produces on the span built from the array's buffer and
Shape.  The two hypotheses are the Shape invariants every `nd_array` has by
construction: canonical (contiguous) strides and a stored size equal to the
extent product; they are needed because `nd_array::reshape_impl` omits the
contiguity guard and compares against the stored `m_size`. -/
theorem arr_transforms_are_span_transforms (maxRank : Nat) (a : nd_array)
    (hc : is_contiguous a.m_extents a.m_strides a.m_rank = true)
    (hs : a.m_size = compute_size a.m_extents a.m_rank) :
    (∀ dim start stop, a.subspan dim start stop = (span_of a).subspan dim start stop)
      ∧ (∀ dim index, a.slice dim index = (span_of a).slice dim index)
      ∧ (∀ newE, a.reshape maxRank newE = (span_of a).reshape maxRank newE)
      ∧ (∀ axes, a.transpose maxRank axes = (span_of a).transpose maxRank axes)
      ∧ (a.flatten maxRank = (span_of a).flatten maxRank)
      ∧ (a.squeeze = (span_of a).squeeze) := by
  have hsz : (span_of a).size = a.m_size := by
    simp only [nd_span.size, span_of]
    exact hs.symm
  have hre : ∀ newE, a.reshape maxRank newE = (span_of a).reshape maxRank newE := by
    intro newE
    unfold nd_array.reshape nd_span.reshape
    by_cases h1 : maxRank < newE.length
    · rw [if_pos h1, if_pos h1]
    · rw [if_neg h1, if_neg h1]
      have hcs : is_contiguous (span_of a).m_extents (span_of a).m_strides
          (span_of a).m_rank = true := hc
      rw [hcs, if_pos rfl, hsz]
      rfl
  refine ⟨fun dim start stop => rfl, fun dim index => rfl, hre, fun axes => rfl, ?_, rfl⟩
  have h1 := hre [a.m_size]
  rw [nd_array.flatten, nd_span.flatten, hsz, h1]

/-- Witness for C8 at a 2x3 array with canonical strides (3,1) and size 6. -/
theorem arr_transforms_are_span_transforms_witness :
    is_contiguous (nd_array.mk (some fun _ => 0) (fun i => [2, 3].getD i 0)
        (fun i => [3, 1].getD i 0) 6 2).m_extents
      (nd_array.mk (some fun _ => 0) (fun i => [2, 3].getD i 0)
        (fun i => [3, 1].getD i 0) 6 2).m_strides 2 = true
      ∧ (nd_array.mk (some fun _ => 0) (fun i => [2, 3].getD i 0)
          (fun i => [3, 1].getD i 0) 6 2).subspan 0 1 2
        = (span_of (nd_array.mk (some fun _ => 0) (fun i => [2, 3].getD i 0)
            (fun i => [3, 1].getD i 0) 6 2)).subspan 0 1 2
      ∧ (nd_array.mk (some fun _ => 0) (fun i => [2, 3].getD i 0)
          (fun i => [3, 1].getD i 0) 6 2).reshape 8 [3, 2]
        = (span_of (nd_array.mk (some fun _ => 0) (fun i => [2, 3].getD i 0)
            (fun i => [3, 1].getD i 0) 6 2)).reshape 8 [3, 2] := by
  have h := arr_transforms_are_span_transforms 8
    (nd_array.mk (some fun _ => 0) (fun i => [2, 3].getD i 0) (fun i => [3, 1].getD i 0) 6 2)
    (by decide) (by decide)
  exact ⟨by decide, h.1 0 1 2, h.2.2.1 [3, 2]⟩

/-- C9 counterexample: the primary constructor
`nd_span(ptr, extents, strides, rank)` is public and stores its extent array
unchecked, so a rank-1 view can carry the nonzero extent 5 in slot 1; indexing
it with two indices (strictly more than its rank) then succeeds with offset 0
instead of failing with IndexOutOfBounds. -/
theorem excess_indices_can_succeed_after_primary_ctor :
    offset_compute (nd_span.mk 0 (fun _ => 5) (fun _ => 1) 1).m_extents
        (nd_span.mk 0 (fun _ => 5) (fun _ => 1) 1).m_strides [0, 0] = .ok 0 := by
  rfl

/-- C9 (corrected): for an `nd_span` or an `nd_array` built by an extent-list
constructor (which zero-pads every extent slot at index ≥ rank), indexing
with strictly more indices than the rank — but at most MaxRank of them, the
region the C++ arrays actually have — always fails with IndexOutOfBounds:
the bounds check `index < extent` cannot hold against the zero extent at
position `rank`. -/
theorem excess_indices_fail_after_extent_ctor (maxRank base : Nat)
    (exts idx : List Nat) (hm : exts.length < idx.length)
    (hmn : idx.length ≤ maxRank) :
    ((ndSpanOfExtents maxRank base exts).map
        (fun v => offset_compute v.m_extents v.m_strides idx)
      = .ok (.error .indexOutOfBounds))
      ∧ ((ndArrayOfExtents maxRank exts).map
          (fun a => offset_compute a.m_extents a.m_strides idx)
        = .ok (.error .indexOutOfBounds)) := by
  have hle : ¬ maxRank < exts.length := by omega
  constructor
  · unfold ndSpanOfExtents
    rw [if_neg hle]
    simp only [Except.map]
    rw [offset_compute_err _ _ idx ⟨exts.length, hm, by simp⟩]
  · unfold ndArrayOfExtents
    rw [if_neg hle]
    simp only [Except.map]
    rw [offset_compute_err _ _ idx ⟨exts.length, hm, by simp⟩]

/-- Witness for C9: a rank-1 span and a rank-1 array over extents (2), each
indexed with (0, 0). -/
theorem excess_indices_fail_after_extent_ctor_witness :
    ((ndSpanOfExtents 8 0 [2]).map
        (fun v => offset_compute v.m_extents v.m_strides [0, 0])
      = .ok (.error .indexOutOfBounds))
      ∧ ((ndArrayOfExtents 8 [2]).map
          (fun a => offset_compute a.m_extents a.m_strides [0, 0])
        = .ok (.error .indexOutOfBounds)) :=
  excess_indices_fail_after_extent_ctor 8 0 [2] [0, 0] (by decide) (by decide)

/-- Helper: a freshly reshaped view satisfies the padding invariant. -/
theorem reshape_well_formed (maxRank : Nat) (v w : nd_span) (newE : List Nat)
    (hok : v.reshape maxRank newE = .ok w) : well_formed maxRank w := by
  unfold nd_span.reshape at hok
  by_cases h1 : maxRank < newE.length
  · rw [if_pos h1] at hok; cases hok
  · rw [if_neg h1] at hok
    by_cases h2 : is_contiguous v.m_extents v.m_strides v.m_rank = true
    · rw [h2, if_pos rfl] at hok
      by_cases h3 : compute_size (fun i => if i < newE.length then newE.getD i 0 else 0)
          newE.length ≠ v.size
      · rw [if_pos h3] at hok; cases hok
      · rw [if_neg h3] at hok
        have hw := Except.ok.inj hok
        subst hw
        intro i hiN hri
        simp only at hri ⊢
        refine ⟨by rw [if_neg (by omega)], ?_⟩
        by_cases hr0 : newE.length = 0
        · simp [stride_compute, hr0]
        · exact stride_compute_inert maxRank _ _ newE.length i hr0 hri hiN
    · rw [Bool.not_eq_true] at h2
      rw [h2] at hok
      simp only [Bool.false_eq_true, if_false] at hok
      cases hok

/-- C1 counterexample: moving from the freshly constructed 3x4 array leaves
the source with a null buffer but rank 2 and size 12, not the claimed empty
(rank 0, size 0) state — the defaulted move only transfers the `unique_ptr`
and copies the scalar members. -/
theorem moved_from_array_keeps_rank_and_size :
    (ndArrayOfExtents 8 [3, 4]).map
        (fun a => (a.move.2.m_rank, a.move.2.m_size, a.move.2.m_data.isNone))
      = .ok (2, 12, true) := by
  rfl

/-- C1 (corrected): after a (defaulted) move construction or move assignment
the destination holds exactly the source's former state, and the moved-from
source holds a null buffer while keeping its previous rank, size, extents and
strides unchanged; it is not reset to the empty (rank 0, size 0) state. -/
theorem move_transfers_state_and_nulls_source (a : nd_array) :
    a.move.1 = a
      ∧ a.move.2.m_data = none
      ∧ a.move.2.m_rank = a.m_rank
      ∧ a.move.2.m_size = a.m_size
      ∧ a.move.2.m_extents = a.m_extents
      ∧ a.move.2.m_strides = a.m_strides := by
  refine ⟨?_, rfl, rfl, rfl, rfl, rfl⟩
  cases a
  rfl

/-- C2 (code bug): on the transposed 2x3 view over the buffer 1..6,
the view's `begin()/end()` iteration (raw pointers, `flat_iter`) yields the
elements in raw memory order 1,2,3,4,5,6, whereas the row-major logical order
of the current (3,2) shape — required by the spec and by the repository's own
stride-aware iteration tests — is 1,4,2,5,3,6. -/
theorem flat_iteration_is_memory_order_not_logical :
    ((nd_span.mk 0 (fun i => [2, 3].getD i 0) (fun i => [3, 1].getD i 0) 2).trT 8).map
        (fun t => (flat_iter (fun k => ([1, 2, 3, 4, 5, 6] : List Int).getD k 0) t,
          logical_iter (fun k => ([1, 2, 3, 4, 5, 6] : List Int).getD k 0) t))
      = .ok ([1, 2, 3, 4, 5, 6], [1, 4, 2, 5, 3, 6]) := by
  rfl

/-- C3 (code bug): `from_span` on the transposed 2x3 view over the buffer
1..6 produces an array with the right extents (3,2) but fills its contiguous
buffer with the first six raw memory cells 1,2,3,4,5,6 (because the fill loop
iterates the span's raw-pointer `begin()/end()` range), not with the view's
row-major logical sequence 1,4,2,5,3,6 that the claim requires. -/
theorem from_span_copies_memory_order_not_logical :
    ((nd_span.mk 0 (fun i => [2, 3].getD i 0) (fun i => [3, 1].getD i 0) 2).trT 8).map
        (fun t => (from_span_impl 8 (fun k => ([1, 2, 3, 4, 5, 6] : List Int).getD k 0) t).map
          (fun a => ((List.range 6).map (arr_cell a), a.m_rank, a.m_extents 0, a.m_extents 1)))
      = .ok (.ok ([1, 2, 3, 4, 5, 6], 2, 3, 2))
      ∧ ((nd_span.mk 0 (fun i => [2, 3].getD i 0) (fun i => [3, 1].getD i 0) 2).trT 8).map
          (fun t => logical_iter (fun k => ([1, 2, 3, 4, 5, 6] : List Int).getD k 0) t)
        = .ok [1, 4, 2, 5, 3, 6] := by
  exact ⟨rfl, rfl⟩
